import Mathlib

/-!
Verification development for the amoradPy XML reconciliation tool.

The definitions below are a shallow embedding of src/xml_processor.py
(class XMLProcessor) together with the call contract of its UI callers
(src/main.py and src/preview_window.py).  Python strings become Lean
String, pandas cells become an explicit Cell type carrying the value a
cell can hold, the filesystem becomes an association list from paths to
file contents, and the fallible shutil.copy2 calls of the commit step
are driven by an explicit failure oracle.  Every definition follows the
corresponding Python code line by line.
-/

/-- Python str.strip with no arguments: remove leading and trailing
whitespace.  Mirrors the .strip() calls throughout xml_processor.py. -/
def pyStrip (s : String) : String :=
  String.mk (((s.toList.dropWhile Char.isWhitespace).reverse.dropWhile
    Char.isWhitespace).reverse)

/-- Character membership in a string, the Python idiom c in s. -/
def strContainsChar (s : String) (c : Char) : Bool := s.toList.contains c

/-- First whitespace-delimited token of a string, matching Python
s.split()[0] on the inputs where the source evaluates it (a stripped,
nonempty string containing a space). -/
def pySplitHead (s : String) : String :=
  String.mk ((s.toList.dropWhile Char.isWhitespace).takeWhile (fun c => !c.isWhitespace))

/-- The date-part computation of XMLProcessor.process_xml_file lines
238-239 and 243: if the string contains a space character, keep only the
first whitespace-delimited token, otherwise keep the string whole. -/
def pyDatePart (s : String) : String :=
  if strContainsChar s ' ' then pySplitHead s else s

/-- Substring test on character lists, used to mirror the Python idiom
"SRC" in col.upper() of _normalize_columns. -/
def hasSub (pat : List Char) : List Char → Bool
  | [] => pat.isEmpty
  | c :: rest => pat.isPrefixOf (c :: rest) || hasSub pat rest

/-- Python substring containment: pat in s. -/
def containsSub (s pat : String) : Bool := hasSub pat.toList s.toList

/-- Python str.upper restricted to ASCII, as used on column names. -/
def upperStr (s : String) : String := String.mk (s.toList.map Char.toUpper)

/-- Python os.path.basename for slash-separated paths, as used on XML
file paths in process_xml_file and apply_changes: the suffix after the
last slash. -/
def baseName (p : String) : String :=
  String.mk ((p.toList.reverse.takeWhile (fun c => !(c = '/'))).reverse)

/-- One spreadsheet cell as handed to the loader by pandas.  A cell is
a string, an empty cell (pandas NaN), a structured timestamp whose
Python str() form is the date part, a space, and the time part, or a
numeric value whose str() form is its decimal representation. -/
inductive Cell where
  | str (s : String)
  | nan
  | ts (datePart timePart : String)
  | num (reprStr : String)
deriving DecidableEq

/-- Python str() applied to a cell value: a string is itself, an empty
cell is the float nan whose str() is "nan", a pandas Timestamp prints
as "date time", and a numeric cell prints its decimal representation. -/
def pyStrCell : Cell → String
  | Cell.str s => s
  | Cell.nan => "nan"
  | Cell.ts d t => d ++ " " ++ t
  | Cell.num r => r

/-- The pd.isna test of load_reference_data line 55, which the source
applies to src_date AFTER str() conversion: pd.isna of any Python str
is False, so in the embedding this is constantly false. -/
def pdIsnaStr (_ : String) : Bool := false

/-- One reference entry: the dict value self.reference_data[expression]
with its two keys set by load_reference_data lines 62-63. -/
structure RefEntry where
  file : String
  date : String
deriving DecidableEq

/-- Association-list lookup keyed by string, modelling Python dict
lookup on self.reference_data and filesystem path lookup. -/
def lookupA {α : Type} : List (String × α) → String → Option α
  | [], _ => none
  | (k, v) :: t, q => if q = k then some v else lookupA t q

/-- Association-list update, modelling Python dict assignment: the key
gets exactly the new value, every other key is untouched. -/
def updateA {α : Type} (t : List (String × α)) (k : String) (v : α) : List (String × α) :=
  (k, v) :: t.filter (fun p => p.1 != k)

/-- The reference table self.reference_data: expression to entry. -/
def RefTable : Type := List (String × RefEntry)

/-- Dict lookup on the reference table. -/
def lookupRef (t : RefTable) (q : String) : Option RefEntry := lookupA t q

/-- Dict assignment on the reference table.  The source first creates
an empty sub-dict when the key is new and then sets both the file and
the date key, so the net effect is always a full-entry overwrite. -/
def setEntry (t : RefTable) (k : String) (v : RefEntry) : RefTable := updateA t k v

/-- One sheet of the XLSX workbook: its column names and its rows,
each row holding the cells in column order. -/
structure Sheet where
  cols : List String
  rows : List (List Cell)

/-- Cell of a row under a named column: the pandas row[name] access.
Looks up the first column with that name; absent columns give NaN. -/
def getCellByName (s : Sheet) (r : List Cell) (c : String) : Cell :=
  match s.cols.findIdx? (fun x => x = c) with
  | some i => r.getD i Cell.nan
  | none => Cell.nan

/-- The exact required column names of load_reference_data line 27. -/
def requiredColumns : List String := ["Expression", "BaseFilename", "SrcDate"]

/-- One row of load_reference_data lines 49-64: convert the three cells
with str() and strip(), skip the row when the expression or the base
filename string is empty or when pd.isna holds of the date string
(which it never does for a string), otherwise store the entry. -/
def loadRow (s : Sheet) (r : List Cell) (t : RefTable) : RefTable :=
  let expression := pyStrip (pyStrCell (getCellByName s r "Expression"))
  let baseFile := pyStrip (pyStrCell (getCellByName s r "BaseFilename"))
  let srcDate := pyStrip (pyStrCell (getCellByName s r "SrcDate"))
  if expression = "" || baseFile = "" || pdIsnaStr srcDate then t
  else setEntry t expression { file := baseFile, date := srcDate }

/-- One sheet of load_reference_data lines 30-70: after the usecols
filter, a sheet missing any of the three exact required column names is
skipped; otherwise every row is folded into the table. -/
def loadSheet (s : Sheet) (t : RefTable) : RefTable :=
  if requiredColumns.all (fun c => s.cols.contains c) then
    s.rows.foldl (fun acc r => loadRow s r acc) t
  else t

/-- XMLProcessor.load_reference_data lines 13-79: start from an empty
table, fold every sheet of the workbook, and report success exactly
when the resulting table has at least one entry. -/
def loadReferenceData (wb : List Sheet) : Bool × RefTable :=
  let t := wb.foldl (fun acc s => loadSheet s acc) []
  (decide (0 < t.length), t)

/-- Variations list for the expression column in _normalize_columns. -/
def exprVars : List String :=
  ["Expression", "expression", "EXPRESSION", "Name", "name", "Work", "work"]

/-- Variations list for the base-filename column in _normalize_columns. -/
def baseVars : List String :=
  ["BaseFilename", "basefilename", "BaseFileName", "Filename", "filename", "File", "file"]

/-- Variations list for the source-date column in _normalize_columns. -/
def srcdateVars : List String :=
  ["SrcDate", "srcdate", "SourceDate", "sourcedate", "Date", "date", "SRC",
   "SRCDate", "SrcDate", "Notes SRC", "SrcDate"]

/-- Values of a named column of a sheet, in row order. -/
def colValues (s : Sheet) (c : String) : List Cell :=
  s.rows.map (fun r => getCellByName s r c)

/-- The date-likeness probe of _normalize_columns lines 117-130: take
the first five non-NaN values of the column and test whether any of
their str() forms contains a dash or a slash. -/
def looksDateLike (s : Sheet) (c : String) : Bool :=
  (((colValues s c).filter (fun v => v != Cell.nan)).take 5).any
    (fun v => strContainsChar (pyStrCell v) '-' || strContainsChar (pyStrCell v) '/')

/-- The srcdate variations list after the pre-pass of lines 117-130,
which appends every column whose upper-cased name contains SRC and
whose sampled values look date-like. -/
def srcdateVarsAug (s : Sheet) : List String :=
  srcdateVars ++ s.cols.filter (fun c => containsSub (upperStr c) "SRC" && looksDateLike s c)

/-- First variation present among the columns, the inner loop of lines
139-146. -/
def resolveField (cols : List String) (vars : List String) : Option String :=
  vars.find? (fun v => cols.contains v)

/-- XMLProcessor._normalize_columns lines 107-179.  Resolve each of the
three logical fields to an actual column name: first variation found in
the variations list (with the SRC pre-pass applied for srcdate); for
srcdate only, fall back to the first column containing SRC or DATE
upper-cased, then to a literal DateModified column.  If any field stays
unresolved return none; otherwise rename the resolved columns.  Later
dict assignments win, so srcdate takes priority over basefilename over
expression when one column resolves several fields. -/
def normalizeColumns (s : Sheet) : Option Sheet :=
  match resolveField s.cols exprVars with
  | none => none
  | some ve =>
    match resolveField s.cols baseVars with
    | none => none
    | some vb =>
      let sdResolved : Option String :=
        match resolveField s.cols (srcdateVarsAug s) with
        | some v => some v
        | none =>
          match s.cols.find? (fun c =>
              containsSub (upperStr c) "SRC" || containsSub (upperStr c) "DATE") with
          | some v => some v
          | none => if s.cols.contains "DateModified" then some "DateModified" else none
      match sdResolved with
      | none => none
      | some vd =>
        some { cols := s.cols.map (fun c =>
                 if c = vd then "srcdate"
                 else if c = vb then "basefilename"
                 else if c = ve then "expression"
                 else c),
               rows := s.rows }

/-- One row of _process_normalized_data lines 88-102: same acceptance
test as loadRow but reading the normalized column names. -/
def normRow (s : Sheet) (r : List Cell) (t : RefTable) : RefTable :=
  let expression := pyStrip (pyStrCell (getCellByName s r "expression"))
  let baseFile := pyStrip (pyStrCell (getCellByName s r "basefilename"))
  let srcDate := pyStrip (pyStrCell (getCellByName s r "srcdate"))
  if expression = "" || baseFile = "" || pdIsnaStr srcDate then t
  else setEntry t expression { file := baseFile, date := srcDate }

/-- XMLProcessor._process_normalized_data lines 85-105: fold every row
into the table and report whether the table ended up nonempty. -/
def processNormalizedData (s : Sheet) (t0 : RefTable) : Bool × RefTable :=
  let t := s.rows.foldl (fun acc r => normRow s r acc) t0
  (decide (0 < t.length), t)

/-- One lrvalueadd element of an input document: its expression
attribute, its startEffectiveDate attribute (either may be absent), and
an opaque payload standing for all other content, which the source
never touches. -/
structure Elem where
  expression : Option String
  startEffectiveDate : Option String
  payload : String
deriving DecidableEq

/-- One recorded change, the dict appended at lines 251-256. -/
structure Change where
  expression : String
  attr : String
  oldValue : String
  newValue : String
deriving DecidableEq

/-- The per-element body of the loop at process_xml_file lines 226-257.
Skip the element when its expression attribute is absent or falsy, has
no table entry, or the entry names a different base filename; strip the
reference date and the current attribute, drop text after the first
space on both sides, and on inequality set the attribute to the new
date and record the change. -/
def processElem (rd : RefTable) (base : String) (e : Elem) : Elem × Option Change :=
  match e.expression with
  | none => (e, none)
  | some expr =>
    if expr = "" then (e, none)
    else
      match lookupRef rd expr with
      | none => (e, none)
      | some ent =>
        if ent.file ≠ base then (e, none)
        else
          let newDate := pyDatePart (pyStrip ent.date)
          let oldDate := pyStrip (e.startEffectiveDate.getD "")
          let oldPart := pyDatePart oldDate
          if oldPart ≠ newDate then
            ({ e with startEffectiveDate := some newDate },
             some { expression := expr, attr := "startEffectiveDate",
                    oldValue := oldDate, newValue := newDate })
          else (e, none)

/-- The whole element loop of process_xml_file: transform every element
in document order and collect the recorded changes in order. -/
def reconcileDoc (rd : RefTable) (base : String) : List Elem → List Elem × List Change
  | [] => ([], [])
  | e :: es =>
    let pe := processElem rd base e
    let rest := reconcileDoc rd base es
    (pe.1 :: rest.1, pe.2.toList ++ rest.2)

/-- Content of one file on disk: a well-formed XML document (its parsed
element list) or unparseable text. -/
inductive File where
  | xmlF (doc : List Elem)
  | textF (s : String)
deriving DecidableEq

/-- The filesystem: an association list from path to file content. -/
def FS : Type := List (String × File)

/-- Concatenation of all keys of the table with a trailing sentinel,
strictly longer than every key. -/
def keyConcat {α : Type} (t : List (String × α)) : String :=
  t.foldr (fun p acc => p.1 ++ acc) "x"

/-- The tempfile.mkstemp call of process_xml_file line 265, modelled as
a deterministic generator of a name inside the output directory that
provably does not occur in the filesystem. -/
def freshName {α : Type} (t : List (String × α)) (dir : String) : String :=
  (dir ++ "/") ++ (keyConcat t ++ ".xml")

/-- XMLProcessor.process_xml_file lines 211-276.  Read and parse the
document; a missing or unparseable file is the caught-exception path
returning no draft and no changes.  Reconcile the parsed elements; with
zero changes return no draft and write nothing; otherwise serialize the
mutated document to a fresh temporary file in the output directory. -/
def processXmlFile (rd : RefTable) (fs : FS) (xmlPath outDir : String) :
    FS × Option String × List Change :=
  match lookupA fs xmlPath with
  | none => (fs, none, [])
  | some (File.textF _) => (fs, none, [])
  | some (File.xmlF doc) =>
    match reconcileDoc rd (baseName xmlPath) doc with
    | (_, []) => (fs, none, [])
    | (doc2, c :: cs) =>
      (updateA fs (freshName fs outDir) (File.xmlF doc2),
       some (freshName fs outDir), c :: cs)

/-- The per-file loop of XMLProcessorApp._process_files_thread lines
271-285: process every XML file in order, appending the draft path and
the change list only for files that produced a draft. -/
def processFilesThread (rd : RefTable) :
    FS → List String → String → FS × List String × List (String × List Change)
  | fs, [], _ => (fs, [], [])
  | fs, x :: xs, out =>
    let r := processXmlFile rd fs x out
    let rest := processFilesThread rd r.1 xs out
    match r.2.1 with
    | some t => (rest.1, t :: rest.2.1, (x, r.2.2) :: rest.2.2)
    | none => rest

/-- One observable commit action: a successful backup copy of an
original to its destination in the backup directory, or a successful
overwrite of an original with its draft. -/
inductive Event where
  | backupEv (orig dst : String)
  | overwriteEv (orig : String)
deriving DecidableEq

/-- Path written by an event. -/
def evTarget : Event → String
  | Event.backupEv _ dst => dst
  | Event.overwriteEv o => o

/-- The per-pair loop of XMLProcessor.apply_changes lines 294-314,
driven by a failure oracle for the shutil.copy2 calls (argument k
counts copy operations).  Each iteration copies the original into the
backup directory under its base name and then copies the draft over the
original.  A failing or impossible copy raises, and the exception
lands in the handler at line 319: the whole remaining loop is
abandoned.  The trace records the successful copies in order. -/
def commitPairs (fail : Nat → Bool) :
    Nat → FS → List (String × String) → String → Bool × FS × List Event
  | _, fs, [], _ => (true, fs, [])
  | k, fs, (orig, draft) :: rest, bdir =>
    if fail k then (false, fs, [])
    else
      match lookupA fs orig with
      | none => (false, fs, [])
      | some content =>
        let dst := (bdir ++ "/") ++ baseName orig
        let fs1 := updateA fs dst content
        if fail (k + 1) then (false, fs1, [Event.backupEv orig dst])
        else
          match lookupA fs1 draft with
          | none => (false, fs1, [Event.backupEv orig dst])
          | some dcontent =>
            let fs2 := updateA fs1 orig dcontent
            let r := commitPairs fail (k + 2) fs2 rest bdir
            (r.1, r.2.1, Event.backupEv orig dst :: Event.overwriteEv orig :: r.2.2)

/-- XMLProcessor.apply_changes lines 278-321.  The loop enumerates
processed_files and indexes original_files with the same counter, so
the pairs actually committed are the positional zip of the two lists;
when processed_files is longer the out-of-range index raises and the
handler reports failure after the zipped pairs have already run.  All
exceptions are converted into a false result. -/
def applyChanges (fail : Nat → Bool) (fs : FS) (originals processed : List String)
    (bdir : String) : Bool × FS × List Event :=
  let r := commitPairs fail 0 fs (originals.zip processed) bdir
  if processed.length ≤ originals.length then r else (false, r.2.1, r.2.2)

/-- The full batch pipeline as wired by the UI shells: reconcile every
XML file (main.py lines 271-285), then commit with the FULL list of XML
files as originals against the FILTERED list of drafts (main.py lines
300-304 and preview_window.py lines 317-331). -/
def runBatchCommit (rd : RefTable) (fail : Nat → Bool) (fs : FS)
    (xmlFiles : List String) (outDir bdir : String) : Bool × FS × List Event :=
  let p := processFilesThread rd fs xmlFiles outDir
  applyChanges fail p.1 xmlFiles p.2.1 bdir

/-- The event trace a fully successful commit of the given pairs must
produce: for each pair in order, a backup into the backup directory
followed by an overwrite of the original. -/
def expectedEvents (bdir : String) : List (String × String) → List Event
  | [] => []
  | (orig, _) :: rest =>
    Event.backupEv orig ((bdir ++ "/") ++ baseName orig) ::
    Event.overwriteEv orig :: expectedEvents bdir rest

/-!
General lemmas about the association-list dictionary and filesystem
operations and about the fresh draft-name generator.
-/

/-- Filtering out a key leaves lookups of other keys unchanged. -/
theorem lookupA_filter_ne {α : Type} (k q : String) (h : q ≠ k) :
    ∀ t : List (String × α), lookupA (t.filter (fun p => p.1 != k)) q = lookupA t q := by
  intro t
  induction t with
  | nil => rfl
  | cons hd tl ih =>
    rcases hd with ⟨hk, hv⟩
    by_cases hek : hk = k
    · subst hek
      simp only [List.filter_cons, bne_self_eq_false, Bool.false_eq_true, if_false, ih, lookupA]
      simp [h]
    · simp only [List.filter_cons]
      rw [if_pos (by simpa using hek)]
      simp [lookupA, ih]

/-- Dict assignment semantics: the assigned key maps to the new value,
all other keys keep their previous binding. -/
theorem lookupA_updateA {α : Type} (t : List (String × α)) (k q : String) (v : α) :
    lookupA (updateA t k v) q = if q = k then some v else lookupA t q := by
  by_cases h : q = k
  · subst h; simp [updateA, lookupA]
  · simp [updateA, lookupA, h, lookupA_filter_ne k q h t]

/-- A successful lookup means the key occurs in the table. -/
theorem lookupA_some_mem {α : Type} {t : List (String × α)} {q : String} {v : α}
    (h : lookupA t q = some v) : q ∈ t.map Prod.fst := by
  induction t with
  | nil => simp [lookupA] at h
  | cons hd tl ih =>
    rcases hd with ⟨hk, hv⟩
    by_cases he : q = hk
    · simp [he]
    · simp only [lookupA, if_neg he] at h
      simp [ih h]

/-- The key concatenation is nonempty. -/
theorem keyConcat_pos {α : Type} (t : List (String × α)) : 0 < (keyConcat t).length := by
  induction t with
  | nil =>
    show 0 < ("x" : String).length
    decide
  | cons hd tl ih =>
    show 0 < (hd.1 ++ keyConcat tl).length
    rw [String.length_append]
    omega

/-- Every key of the table is strictly shorter than the concatenation
of all keys. -/
theorem keyConcat_length_lt {α : Type} (t : List (String × α)) (q : String)
    (h : q ∈ t.map Prod.fst) : q.length < (keyConcat t).length := by
  induction t with
  | nil => simp at h
  | cons hd tl ih =>
    simp only [List.map_cons, List.mem_cons] at h
    have hp := keyConcat_pos tl
    have hs : (keyConcat (hd :: tl)).length = hd.1.length + (keyConcat tl).length := by
      show (hd.1 ++ keyConcat tl).length = hd.1.length + (keyConcat tl).length
      rw [String.length_append]
    rcases h with h1 | h2
    · subst h1
      omega
    · have := ih h2
      omega

/-- The generated draft name never collides with an existing path: the
uniqueness contract of tempfile.mkstemp in the embedding. -/
theorem lookupA_freshName {α : Type} (t : List (String × α)) (dir : String) :
    lookupA t (freshName t dir) = none := by
  cases h : lookupA t (freshName t dir) with
  | none => rfl
  | some v =>
    exfalso
    have hm := lookupA_some_mem h
    have hlt := keyConcat_length_lt t _ hm
    have hx : (".xml" : String).length = 4 := rfl
    simp only [freshName, String.length_append] at hlt
    omega

/-!
Properties of the commit loop.
-/

/-- A trace is ordered when every overwrite of an original is preceded
by a successful backup of that same original into the backup
directory under its base name. -/
def orderedTrace (bdir : String) (tr : List Event) : Prop :=
  ∀ i o, tr.get? i = some (Event.overwriteEv o) →
    ∃ j, j < i ∧ tr.get? j = some (Event.backupEv o ((bdir ++ "/") ++ baseName o))

/-- The empty trace is ordered. -/
theorem orderedTrace_nil (bdir : String) : orderedTrace bdir [] := by
  intro i o h
  simp at h

/-- A trace holding a single backup event is ordered. -/
theorem orderedTrace_single_backup (bdir o d : String) :
    orderedTrace bdir [Event.backupEv o d] := by
  intro i o2 h
  match i with
  | 0 => simp at h
  | n + 1 => simp at h

/-- Prepending a backup and the matching overwrite preserves
orderedness. -/
theorem orderedTrace_cons2 (bdir o : String) (tr : List Event)
    (h : orderedTrace bdir tr) :
    orderedTrace bdir
      (Event.backupEv o ((bdir ++ "/") ++ baseName o) :: Event.overwriteEv o :: tr) := by
  intro i o2 hio
  match i with
  | 0 => simp at hio
  | 1 =>
    simp at hio
    exact ⟨0, by omega, by rw [hio]; rfl⟩
  | n + 2 =>
    have hio2 : tr.get? n = some (Event.overwriteEv o2) := by simpa using hio
    obtain ⟨j, hj, hjev⟩ := h n o2 hio2
    exact ⟨j + 2, by omega, by simpa using hjev⟩

/-- Every trace the commit loop produces is ordered: an original is
only ever overwritten after its own backup copy succeeded. -/
theorem commitPairs_ordered (bdir : String) :
    ∀ (pairs : List (String × String)) (fail : Nat → Bool) (k : Nat) (fs : FS),
      orderedTrace bdir (commitPairs fail k fs pairs bdir).2.2 := by
  intro pairs
  induction pairs with
  | nil =>
    intro fail k fs
    exact orderedTrace_nil bdir
  | cons hd tl ih =>
    rcases hd with ⟨orig, draft⟩
    intro fail k fs
    by_cases h0 : fail k
    · simp only [commitPairs, h0, if_true]
      exact orderedTrace_nil bdir
    · cases hc : lookupA fs orig with
      | none =>
        simp only [commitPairs, h0, Bool.false_eq_true, if_false, hc]
        exact orderedTrace_nil bdir
      | some content =>
        by_cases h1 : fail (k + 1)
        · simp only [commitPairs, h0, Bool.false_eq_true, if_false, hc, h1, if_true]
          exact orderedTrace_single_backup bdir orig _
        · cases hdr : lookupA (updateA fs ((bdir ++ "/") ++ baseName orig) content) draft with
          | none =>
            simp only [commitPairs, h0, Bool.false_eq_true, if_false, hc, h1, hdr]
            exact orderedTrace_single_backup bdir orig _
          | some dcontent =>
            simp only [commitPairs, h0, Bool.false_eq_true, if_false, hc, h1, hdr]
            exact orderedTrace_cons2 bdir orig _ (ih fail (k + 2) _)

/-- Paths never written by any event of the commit trace keep their
content: in particular, when the backup of a pair fails, that pair's
original (untouched by any event) still holds its old content. -/
theorem commitPairs_frame (bdir : String) :
    ∀ (pairs : List (String × String)) (fail : Nat → Bool) (k : Nat) (fs : FS) (p : String),
      (∀ ev ∈ (commitPairs fail k fs pairs bdir).2.2, evTarget ev ≠ p) →
      lookupA (commitPairs fail k fs pairs bdir).2.1 p = lookupA fs p := by
  intro pairs
  induction pairs with
  | nil =>
    intro fail k fs p _
    rfl
  | cons hd tl ih =>
    rcases hd with ⟨orig, draft⟩
    intro fail k fs p hp
    by_cases h0 : fail k
    · simp only [commitPairs, h0, if_true]
    · cases hc : lookupA fs orig with
      | none =>
        simp only [commitPairs, h0, Bool.false_eq_true, if_false, hc]
      | some content =>
        by_cases h1 : fail (k + 1)
        · simp only [commitPairs, h0, Bool.false_eq_true, if_false, hc, h1, if_true] at hp ⊢
          have hne : p ≠ (bdir ++ "/") ++ baseName orig := by
            intro he
            exact hp (Event.backupEv orig ((bdir ++ "/") ++ baseName orig))
              (List.mem_singleton_self _) he.symm
          rw [lookupA_updateA]
          simp [hne]
        · cases hdr : lookupA (updateA fs ((bdir ++ "/") ++ baseName orig) content) draft with
          | none =>
            simp only [commitPairs, h0, Bool.false_eq_true, if_false, hc, h1, hdr] at hp ⊢
            have hne : p ≠ (bdir ++ "/") ++ baseName orig := by
              intro he
              exact hp (Event.backupEv orig ((bdir ++ "/") ++ baseName orig))
                (List.mem_singleton_self _) he.symm
            rw [lookupA_updateA]
            simp [hne]
          | some dcontent =>
            simp only [commitPairs, h0, Bool.false_eq_true, if_false, hc, h1, hdr] at hp ⊢
            have hb : p ≠ (bdir ++ "/") ++ baseName orig := by
              intro he
              exact hp (Event.backupEv orig ((bdir ++ "/") ++ baseName orig))
                (by simp) he.symm
            have ho : p ≠ orig := by
              intro he
              exact hp (Event.overwriteEv orig) (by simp) he.symm
            have hrest : ∀ ev ∈ (commitPairs fail (k + 2)
                (updateA (updateA fs ((bdir ++ "/") ++ baseName orig) content) orig dcontent)
                tl bdir).2.2, evTarget ev ≠ p := by
              intro ev hev
              exact hp ev (by simp [hev])
            rw [ih fail (k + 2) _ p hrest, lookupA_updateA, lookupA_updateA]
            simp [hb, ho]

/-- A commit run that reports success has committed every pair: its
trace is exactly a backup followed by an overwrite for each pair in
input order. -/
theorem commitPairs_ok_trace (bdir : String) :
    ∀ (pairs : List (String × String)) (fail : Nat → Bool) (k : Nat) (fs : FS),
      (commitPairs fail k fs pairs bdir).1 = true →
      (commitPairs fail k fs pairs bdir).2.2 = expectedEvents bdir pairs := by
  intro pairs
  induction pairs with
  | nil =>
    intro fail k fs _
    rfl
  | cons hd tl ih =>
    rcases hd with ⟨orig, draft⟩
    intro fail k fs hok
    by_cases h0 : fail k
    · simp [commitPairs, h0] at hok
    · cases hc : lookupA fs orig with
      | none => simp [commitPairs, h0, hc] at hok
      | some content =>
        by_cases h1 : fail (k + 1)
        · simp [commitPairs, h0, hc, h1] at hok
        · cases hdr : lookupA (updateA fs ((bdir ++ "/") ++ baseName orig) content) draft with
          | none => simp [commitPairs, h0, hc, h1, hdr] at hok
          | some dcontent =>
            simp only [commitPairs, h0, Bool.false_eq_true, if_false, hc, h1, hdr] at hok ⊢
            rw [ih fail (k + 2) _ hok]
            rfl

/-- The exception wrapper of apply_changes does not alter the
filesystem or the trace of the underlying loop over the zipped pairs. -/
theorem applyChanges_snd (fail : Nat → Bool) (fs : FS) (originals processed : List String)
    (bdir : String) :
    (applyChanges fail fs originals processed bdir).2
      = (commitPairs fail 0 fs (originals.zip processed) bdir).2 := by
  unfold applyChanges
  by_cases h : processed.length ≤ originals.length <;> simp [h]

/-!
Concrete sample data used by witnesses and counterexamples.
-/

/-- Sample element of document a: its expression has no table entry. -/
def elemA : Elem :=
  { expression := some "X", startEffectiveDate := some "2020-01-01", payload := "pa" }

/-- Sample element of document b: stale date, table entry present. -/
def elemB : Elem :=
  { expression := some "E", startEffectiveDate := some "2023-01-01", payload := "pb" }

/-- The element of document b after reconciliation. -/
def elemB2 : Elem :=
  { expression := some "E", startEffectiveDate := some "2024-03-01", payload := "pb" }

/-- Sample reference table with one entry targeting b.xml. -/
def refB : RefTable := [("E", { file := "b.xml", date := "2024-03-01" })]

/-- Sample filesystem with the two originals. -/
def fsAB : FS := [("in/a.xml", File.xmlF [elemA]), ("in/b.xml", File.xmlF [elemB])]

/-- Claim C1: for every commit batch and every pair the code commits,
the original is never overwritten unless a backup copy of that original
was successfully written to the backup directory first, and if the
backup copy fails the original is left untouched.  First conjunct: the
event trace is ordered, every overwrite of an original is preceded by a
successful backup of that original into the backup directory.  Second
conjunct: any path no successful copy targeted, in particular the
original of a pair whose backup failed, keeps its previous content. -/
theorem commit_backup_precedes_overwrite (fail : Nat → Bool) (fs : FS)
    (originals processed : List String) (bdir : String) :
    orderedTrace bdir (applyChanges fail fs originals processed bdir).2.2 ∧
    ∀ p, (∀ ev ∈ (applyChanges fail fs originals processed bdir).2.2, evTarget ev ≠ p) →
      lookupA (applyChanges fail fs originals processed bdir).2.1 p = lookupA fs p := by
  have h2 := applyChanges_snd fail fs originals processed bdir
  have hTr : (applyChanges fail fs originals processed bdir).2.2
      = (commitPairs fail 0 fs (originals.zip processed) bdir).2.2 := congrArg Prod.snd h2
  have hFs : (applyChanges fail fs originals processed bdir).2.1
      = (commitPairs fail 0 fs (originals.zip processed) bdir).2.1 := congrArg Prod.fst h2
  constructor
  · rw [hTr]
    exact commitPairs_ordered bdir (originals.zip processed) fail 0 fs
  · intro p hp
    rw [hTr] at hp
    rw [hFs]
    exact commitPairs_frame bdir (originals.zip processed) fail 0 fs p hp

/-- Witness for C1: in a concrete one-pair commit with no failures, the
overwrite at trace position one is preceded by the backup of the same
original at position zero. -/
theorem commit_backup_precedes_overwrite_witness :
    ∃ j, j < 1 ∧
      (applyChanges (fun _ => false)
          [("in/a.xml", File.textF "A"), ("p.xml", File.textF "P")]
          ["in/a.xml"] ["p.xml"] "bak").2.2.get? j
        = some (Event.backupEv "in/a.xml" (("bak" ++ "/") ++ baseName "in/a.xml")) :=
  (commit_backup_precedes_overwrite (fun _ => false)
      [("in/a.xml", File.textF "A"), ("p.xml", File.textF "P")]
      ["in/a.xml"] ["p.xml"] "bak").1 1 "in/a.xml" rfl

/-- Claim C2 is violated by the code: the commit caller passes ALL xml
files as originals but only the files with changes as drafts, and
apply_changes pairs them positionally.  In this batch only in/b.xml has
a recorded change, yet after the commit in/a.xml (no recorded change)
holds the reconciled content of document b, while in/b.xml keeps its
stale content and is never updated. -/
theorem commit_misaligned_overwrites_unchanged_original :
    (processFilesThread refB fsAB ["in/a.xml", "in/b.xml"] "out").2.2
      = [("in/b.xml",
          [{ expression := "E", attr := "startEffectiveDate",
             oldValue := "2023-01-01", newValue := "2024-03-01" }])] ∧
    lookupA (runBatchCommit refB (fun _ => false) fsAB
        ["in/a.xml", "in/b.xml"] "out" "bak").2.1 "in/a.xml"
      = some (File.xmlF [elemB2]) ∧
    lookupA (runBatchCommit refB (fun _ => false) fsAB
        ["in/a.xml", "in/b.xml"] "out" "bak").2.1 "in/b.xml"
      = some (File.xmlF [elemB]) := by
  refine ⟨?_, ?_, ?_⟩ <;> rfl

/-- Claim C3 as stated is false: when the very first backup copy fails,
the commit returns failure with an EMPTY trace and an unchanged
filesystem, so the remaining file in/b.xml never attempts its commit. -/
theorem commit_abandons_remaining_after_failure :
    applyChanges (fun k => k == 0) fsAB ["in/a.xml", "in/b.xml"]
        ["p/a.xml", "p/b.xml"] "bak"
      = (false, fsAB, []) :=
  rfl

/-- Claim C3 amended: a backup or overwrite failure for one file
abandons that file AND every remaining file of the batch; no further
copy is performed, and the failure is reported through the returned
false flag instead of an exception (the commit function is total).
First conjunct: a failing backup copy stops the loop at once with no
events and the filesystem untouched.  Second conjunct: a failing
overwrite copy (the operation after a successful backup) stops the
loop at once, the trace holding only that backup and the filesystem
holding only the backup file, with no copy for the overwrite or for
any remaining pair.  Third conjunct: a run reporting success has
committed every zipped pair in order, so any failure is always
visible in the result flag. -/
theorem commit_failure_aborts_whole_batch :
    (∀ (fail : Nat → Bool) (k : Nat) (fs : FS) (o d : String)
        (rest : List (String × String)) (bdir : String),
      fail k = true → commitPairs fail k fs ((o, d) :: rest) bdir = (false, fs, [])) ∧
    (∀ (fail : Nat → Bool) (k : Nat) (fs : FS) (o d : String)
        (rest : List (String × String)) (bdir : String) (content : File),
      fail k = false → lookupA fs o = some content → fail (k + 1) = true →
      commitPairs fail k fs ((o, d) :: rest) bdir
        = (false, updateA fs ((bdir ++ "/") ++ baseName o) content,
           [Event.backupEv o ((bdir ++ "/") ++ baseName o)])) ∧
    (∀ (fail : Nat → Bool) (fs : FS) (originals processed : List String) (bdir : String),
      (applyChanges fail fs originals processed bdir).1 = true →
      (applyChanges fail fs originals processed bdir).2.2
          = expectedEvents bdir (originals.zip processed) ∧
      processed.length ≤ originals.length) := by
  refine ⟨?_, ?_, ?_⟩
  · intro fail k fs o d rest bdir h
    simp [commitPairs, h]
  · intro fail k fs o d rest bdir content h0 hc h1
    simp [commitPairs, h0, hc, h1]
  · intro fail fs originals processed bdir hok
    by_cases hlen : processed.length ≤ originals.length
    · refine ⟨?_, hlen⟩
      have h1 : (applyChanges fail fs originals processed bdir).1
          = (commitPairs fail 0 fs (originals.zip processed) bdir).1 := by
        unfold applyChanges
        simp [hlen]
      have h2 := applyChanges_snd fail fs originals processed bdir
      have hTr : (applyChanges fail fs originals processed bdir).2.2
          = (commitPairs fail 0 fs (originals.zip processed) bdir).2.2 := congrArg Prod.snd h2
      rw [hTr]
      exact commitPairs_ok_trace bdir (originals.zip processed) fail 0 fs (h1 ▸ hok)
    · exfalso
      have : (applyChanges fail fs originals processed bdir).1 = false := by
        unfold applyChanges
        simp [hlen]
      rw [this] at hok
      exact Bool.false_ne_true hok

/-- Witness for the amended C3: a concrete failing first backup yields
no events at all; a concrete failing overwrite (second copy) yields
exactly the one backup event and stops before the remaining pair; and
a concrete fully successful run produces exactly the expected
backup-then-overwrite trace. -/
theorem commit_failure_aborts_whole_batch_witness :
    commitPairs (fun _ => true) 0 fsAB
        [("in/a.xml", "p/a.xml"), ("in/b.xml", "p/b.xml")] "bak" = (false, fsAB, []) ∧
    commitPairs (fun k => k == 1) 0 fsAB
        [("in/a.xml", "p/a.xml"), ("in/b.xml", "p/b.xml")] "bak"
      = (false, updateA fsAB (("bak" ++ "/") ++ baseName "in/a.xml") (File.xmlF [elemA]),
         [Event.backupEv "in/a.xml" (("bak" ++ "/") ++ baseName "in/a.xml")]) ∧
    (applyChanges (fun _ => false) fsAB ["in/a.xml"] ["in/b.xml"] "bak").2.2
      = expectedEvents "bak" (["in/a.xml"].zip ["in/b.xml"]) :=
  ⟨commit_failure_aborts_whole_batch.1 (fun _ => true) 0 fsAB "in/a.xml" "p/a.xml"
      [("in/b.xml", "p/b.xml")] "bak" rfl,
   commit_failure_aborts_whole_batch.2.1 (fun k => k == 1) 0 fsAB "in/a.xml" "p/a.xml"
      [("in/b.xml", "p/b.xml")] "bak" (File.xmlF [elemA]) rfl rfl rfl,
   (commit_failure_aborts_whole_batch.2.2 (fun _ => false) fsAB
      ["in/a.xml"] ["in/b.xml"] "bak" rfl).1⟩

/-!
Properties of the reference loader.
-/

/-- Sample sheet whose column names have no exact match with the
required names of load_reference_data. -/
def sheetWFS : Sheet :=
  { cols := ["Work", "File", "SRCDate"],
    rows := [[Cell.str "EXPR1", Cell.str "doc1.xml", Cell.str "2024-03-01"]] }

/-- Sample sheet with exact column names, one timestamp-valued date
cell and one numeric serial date cell. -/
def sheetTS : Sheet :=
  { cols := ["Expression", "BaseFilename", "SrcDate"],
    rows := [[Cell.str "E1", Cell.str "doc1.xml", Cell.ts "2024-03-14" "00:00:00"],
             [Cell.str "E2", Cell.str "doc2.xml", Cell.num "45000.0"]] }

/-- Sample sheet with exact column names and an empty date cell. -/
def sheetNanDate : Sheet :=
  { cols := ["Expression", "BaseFilename", "SrcDate"],
    rows := [[Cell.str "E1", Cell.str "doc1.xml", Cell.nan]] }

/-- Sample sheet with exact column names and an empty base-filename
cell. -/
def sheetNanBase : Sheet :=
  { cols := ["Expression", "BaseFilename", "SrcDate"],
    rows := [[Cell.str "E2", Cell.nan, Cell.str "2024-01-01"]] }

/-- Claim C4 as stated is false: load_reference_data, the load
operation the application invokes, requires the exact column names
Expression, BaseFilename and SrcDate; a source whose only sheet has
columns Work, File and SRCDate is skipped entirely, so the load
reports failure with an empty table instead of resolving the columns
by substring matching. -/
theorem load_skips_renamed_columns_sheet :
    loadReferenceData [sheetWFS] = (false, []) := by
  rfl

/-- Claim C4 amended: the resolution the claim describes lives in the
helper _normalize_columns, which the load operation never calls.  That
helper maps Work, File and SRCDate to expression, basefilename and
srcdate (through its built-in variation lists rather than substring
matching), and _process_normalized_data then builds a nonempty table
from the valid rows of the renamed sheet. -/
theorem normalize_columns_resolves_work_file_srcdate :
    normalizeColumns sheetWFS
      = some { cols := ["expression", "basefilename", "srcdate"], rows := sheetWFS.rows } ∧
    processNormalizedData
        { cols := ["expression", "basefilename", "srcdate"], rows := sheetWFS.rows } []
      = (true, [("EXPR1", { file := "doc1.xml", date := "2024-03-01" })]) := by
  refine ⟨?_, ?_⟩ <;> rfl

/-- Claim C5 as stated is false: the loader stores the raw str() of
the date cell.  A timestamp cell is stored with its full time-of-day
component and a numeric serial cell is stored as its decimal
representation, not converted from the 1899-12-30 epoch. -/
theorem load_keeps_time_and_serial_raw :
    lookupRef (loadReferenceData [sheetTS]).2 "E1"
      = some { file := "doc1.xml", date := "2024-03-14 00:00:00" } ∧
    strContainsChar "2024-03-14 00:00:00" ' ' = true ∧
    lookupRef (loadReferenceData [sheetTS]).2 "E2"
      = some { file := "doc2.xml", date := "45000.0" } := by
  refine ⟨?_, ?_, ?_⟩ <;> rfl

/-- Per-row provenance of the stored date string. -/
theorem loadRow_lookup (s : Sheet) (r : List Cell) (t : RefTable) (q : String)
    (ent : RefEntry) (h : lookupRef (loadRow s r t) q = some ent) :
    lookupRef t q = some ent ∨
      ent.date = pyStrip (pyStrCell (getCellByName s r "SrcDate")) := by
  simp only [loadRow] at h
  split at h
  · exact Or.inl h
  · rw [lookupRef, setEntry, lookupA_updateA] at h
    by_cases he : q = pyStrip (pyStrCell (getCellByName s r "Expression"))
    · rw [if_pos he] at h
      right
      cases h
      rfl
    · rw [if_neg he] at h
      exact Or.inl h

/-- Per-sheet provenance of the stored date string. -/
theorem loadRows_lookup (s : Sheet) :
    ∀ (rows : List (List Cell)) (t : RefTable) (q : String) (ent : RefEntry),
      lookupRef (rows.foldl (fun acc r => loadRow s r acc) t) q = some ent →
      lookupRef t q = some ent ∨
        ∃ r ∈ rows, ent.date = pyStrip (pyStrCell (getCellByName s r "SrcDate")) := by
  intro rows
  induction rows with
  | nil =>
    intro t q ent h
    exact Or.inl h
  | cons r rows ih =>
    intro t q ent h
    rcases ih (loadRow s r t) q ent h with h1 | ⟨r2, hr2, hd⟩
    · rcases loadRow_lookup s r t q ent h1 with h2 | hd
      · exact Or.inl h2
      · exact Or.inr ⟨r, by simp, hd⟩
    · exact Or.inr ⟨r2, by simp [hr2], hd⟩

/-- Provenance of the stored date string through one sheet. -/
theorem loadSheet_lookup (s : Sheet) (t : RefTable) (q : String) (ent : RefEntry)
    (h : lookupRef (loadSheet s t) q = some ent) :
    lookupRef t q = some ent ∨
      ∃ r ∈ s.rows, ent.date = pyStrip (pyStrCell (getCellByName s r "SrcDate")) := by
  unfold loadSheet at h
  split at h
  · exact loadRows_lookup s s.rows t q ent h
  · exact Or.inl h

/-- Claim C5 amended: for every entry of the loaded table, the stored
date is exactly the stripped Python str() form of some SrcDate cell of
the workbook.  The loader performs no date parsing, no reformatting to
YYYY-MM-DD, no time-of-day stripping, and no serial-number conversion;
text after a space is only dropped later, inside process_xml_file, when
the reference value is compared and written. -/
theorem load_stores_raw_cell_string :
    ∀ (wb : List Sheet) (q : String) (ent : RefEntry),
      lookupRef (loadReferenceData wb).2 q = some ent →
      ∃ s ∈ wb, ∃ r ∈ s.rows,
        ent.date = pyStrip (pyStrCell (getCellByName s r "SrcDate")) := by
  have main : ∀ (sheets : List Sheet) (t : RefTable) (q : String) (ent : RefEntry),
      lookupRef (sheets.foldl (fun acc s => loadSheet s acc) t) q = some ent →
      lookupRef t q = some ent ∨
        ∃ s ∈ sheets, ∃ r ∈ s.rows,
          ent.date = pyStrip (pyStrCell (getCellByName s r "SrcDate")) := by
    intro sheets
    induction sheets with
    | nil =>
      intro t q ent h
      exact Or.inl h
    | cons s sheets ih =>
      intro t q ent h
      rcases ih (loadSheet s t) q ent h with h1 | ⟨s2, hs2, hrest⟩
      · rcases loadSheet_lookup s t q ent h1 with h2 | ⟨r, hr, hd⟩
        · exact Or.inl h2
        · exact Or.inr ⟨s, by simp, r, hr, hd⟩
      · exact Or.inr ⟨s2, by simp [hs2], hrest⟩
  intro wb q ent h
  rcases main wb [] q ent h with h1 | h2
  · cases h1
  · exact h2

/-- Witness for the amended C5: the stored date of entry E1 of the
sample workbook is literally the str() of its timestamp cell. -/
theorem load_stores_raw_cell_string_witness :
    ∃ s ∈ [sheetTS], ∃ r ∈ s.rows,
      ("2024-03-14 00:00:00" : String)
        = pyStrip (pyStrCell (getCellByName s r "SrcDate")) :=
  load_stores_raw_cell_string [sheetTS] "E1"
    { file := "doc1.xml", date := "2024-03-14 00:00:00" } rfl

/-- Claim C6 is violated by the code: a row whose SrcDate cell is
empty (pandas NaN) is NOT excluded.  The code computes
str(row[SrcDate]).strip() first, producing the string nan, and then
applies pd.isna to that string, which is never true, so the row is
stored with the date nan.  The comment above the test (skip rows with
empty values) and the error taxonomy of the spec say it should have
been skipped. -/
theorem load_accepts_empty_date_cell :
    loadReferenceData [sheetNanDate]
      = (true, [("E1", { file := "doc1.xml", date := "nan" })]) := by
  rfl

/-- Claim C10 is violated by the code: a row whose BaseFilename cell is
empty (pandas NaN) is NOT excluded even though its expression and date
are present.  str() turns the empty cell into the nonempty string nan,
which passes the truthiness test, so the entry is stored with the file
name nan. -/
theorem load_accepts_empty_basefilename_cell :
    loadReferenceData [sheetNanBase]
      = (true, [("E2", { file := "nan", date := "2024-01-01" })]) := by
  rfl

/-!
Properties of the per-document reconciliation.
-/

/-- Claim C7: when the current startEffectiveDate of an element with a
matched reference entry for its own file equals the reference date
after stripping surrounding whitespace and any time-of-day suffix
(text after a space) on either side, reconciliation records no change
for that element and leaves the element, in particular its attribute,
unchanged. -/
theorem reconcile_no_change_when_dates_equal (rd : RefTable) (base : String) (e : Elem)
    (expr : String) (ent : RefEntry)
    (hexpr : e.expression = some expr)
    (hent : lookupRef rd expr = some ent)
    (hfile : ent.file = base)
    (heq : pyDatePart (pyStrip (e.startEffectiveDate.getD ""))
      = pyDatePart (pyStrip ent.date)) :
    processElem rd base e = (e, none) := by
  unfold processElem
  rw [hexpr]
  by_cases h0 : expr = ""
  · simp [h0]
  · simp only [h0, if_false, hent, hfile, heq]
    simp

/-- Witness for C7: a concrete element whose date already matches the
reference timestamp up to the time-of-day suffix is left untouched. -/
theorem reconcile_no_change_when_dates_equal_witness :
    processElem [("E", { file := "b.xml", date := "2024-03-01 00:00:00" })] "b.xml"
        { expression := some "E", startEffectiveDate := some "2024-03-01", payload := "pb" }
      = ({ expression := some "E", startEffectiveDate := some "2024-03-01", payload := "pb" },
         none) :=
  reconcile_no_change_when_dates_equal
    [("E", { file := "b.xml", date := "2024-03-01 00:00:00" })] "b.xml"
    { expression := some "E", startEffectiveDate := some "2024-03-01", payload := "pb" }
    "E" { file := "b.xml", date := "2024-03-01 00:00:00" } rfl rfl rfl (by rfl)

/-- The draft name written by process_xml_file. -/
theorem processXmlFile_draft_name (rd : RefTable) (fs : FS) (xml out : String) :
    ∀ t, (processXmlFile rd fs xml out).2.1 = some t → t = freshName fs out := by
  intro t h
  unfold processXmlFile at h
  cases hl : lookupA fs xml with
  | none =>
    simp only [hl] at h
    exact Option.noConfusion h
  | some f =>
    cases f with
    | textF s =>
      simp only [hl] at h
      exact Option.noConfusion h
    | xmlF doc =>
      simp only [hl] at h
      cases hr : reconcileDoc rd (baseName xml) doc with
      | mk d cs =>
        cases cs with
        | nil =>
          simp only [hr] at h
          exact Option.noConfusion h
        | cons c cs2 =>
          simp only [hr] at h
          exact (Option.some.inj h).symm

/-- The original document path is never modified by process_xml_file. -/
theorem processXmlFile_keeps_original (rd : RefTable) (fs : FS) (xml out : String) :
    lookupA (processXmlFile rd fs xml out).1 xml = lookupA fs xml := by
  unfold processXmlFile
  cases hl : lookupA fs xml with
  | none => simp only [hl]
  | some f =>
    cases f with
    | textF s => simp only [hl]
    | xmlF doc =>
      simp only [hl]
      cases hr : reconcileDoc rd (baseName xml) doc with
      | mk d cs =>
        cases cs with
        | nil =>
          simp only [hr]
          exact hl
        | cons c cs2 =>
          simp only [hr]
          rw [lookupA_updateA]
          have hfresh := lookupA_freshName fs out
          by_cases he : xml = freshName fs out
          · rw [he, hfresh] at hl
            exact Option.noConfusion hl
          · rw [if_neg he, hl]

/-- The recorded changes of process_xml_file depend on the filesystem
only through the content stored at the document path. -/
theorem processXmlFile_changes_congr (rd : RefTable) (fs1 fs2 : FS) (xml out : String)
    (h : lookupA fs1 xml = lookupA fs2 xml) :
    (processXmlFile rd fs1 xml out).2.2 = (processXmlFile rd fs2 xml out).2.2 := by
  unfold processXmlFile
  rw [h]
  cases hl : lookupA fs2 xml with
  | none => simp only [hl]
  | some f =>
    cases f with
    | textF s => simp only [hl]
    | xmlF doc =>
      simp only [hl]
      cases hr : reconcileDoc rd (baseName xml) doc with
      | mk d cs =>
        cases cs with
        | nil => simp only [hr]
        | cons c cs2 => simp only [hr]

/-- Claim C8: reconciling the same unmodified original twice with the
same reference table and no intervening commit yields the same change
records both times.  The first run may write a draft, but it never
touches the original, so the second run reads identical content. -/
theorem reconcile_idempotent_changes (rd : RefTable) (fs : FS) (xml out : String) :
    (processXmlFile rd (processXmlFile rd fs xml out).1 xml out).2.2
      = (processXmlFile rd fs xml out).2.2 :=
  processXmlFile_changes_congr rd (processXmlFile rd fs xml out).1 fs xml out
    (processXmlFile_keeps_original rd fs xml out)

/-- Claim C9: reconciliation never modifies the original document.
First conjunct: the content at the document path is unchanged.  Second
conjunct: when no changes are produced nothing at all is written and no
draft is returned.  Third conjunct: when a draft is returned, it is a
freshly created file (absent before the run) inside the output
directory, every other path is untouched, and it holds the serialized
in-memory reconciliation of the parsed original. -/
theorem reconcile_frame_effect (rd : RefTable) (fs : FS) (xml out : String) :
    lookupA (processXmlFile rd fs xml out).1 xml = lookupA fs xml ∧
    ((processXmlFile rd fs xml out).2.2 = [] →
      (processXmlFile rd fs xml out).1 = fs ∧
      (processXmlFile rd fs xml out).2.1 = none) ∧
    (∀ t, (processXmlFile rd fs xml out).2.1 = some t →
      (∃ rest, t = (out ++ "/") ++ rest) ∧
      lookupA fs t = none ∧
      (∀ p, p ≠ t → lookupA (processXmlFile rd fs xml out).1 p = lookupA fs p) ∧
      (∃ doc, lookupA fs xml = some (File.xmlF doc) ∧
        lookupA (processXmlFile rd fs xml out).1 t
          = some (File.xmlF (reconcileDoc rd (baseName xml) doc).1))) := by
  refine ⟨processXmlFile_keeps_original rd fs xml out, ?_, ?_⟩
  · intro hnil
    unfold processXmlFile at hnil ⊢
    cases hl : lookupA fs xml with
    | none => simp [hl]
    | some f =>
      cases f with
      | textF s => simp [hl]
      | xmlF doc =>
        simp only [hl] at hnil ⊢
        cases hr : reconcileDoc rd (baseName xml) doc with
        | mk d cs =>
          cases cs with
          | nil => simp [hr]
          | cons c cs2 =>
            simp only [hr] at hnil
            exact List.noConfusion hnil
  · intro t ht
    have hname := processXmlFile_draft_name rd fs xml out t ht
    subst hname
    refine ⟨⟨keyConcat fs ++ ".xml", rfl⟩, lookupA_freshName fs out, ?_, ?_⟩
    · intro p hp
      unfold processXmlFile at ht ⊢
      cases hl : lookupA fs xml with
      | none =>
        simp only [hl] at ht
        exact Option.noConfusion ht
      | some f =>
        cases f with
        | textF s =>
          simp only [hl] at ht
          exact Option.noConfusion ht
        | xmlF doc =>
          simp only [hl] at ht ⊢
          cases hr : reconcileDoc rd (baseName xml) doc with
          | mk d cs =>
            cases cs with
            | nil =>
              simp only [hr] at ht
              exact Option.noConfusion ht
            | cons c cs2 =>
              simp only [hr]
              rw [lookupA_updateA, if_neg hp]
    · unfold processXmlFile at ht ⊢
      cases hl : lookupA fs xml with
      | none =>
        simp only [hl] at ht
        exact Option.noConfusion ht
      | some f =>
        cases f with
        | textF s =>
          simp only [hl] at ht
          exact Option.noConfusion ht
        | xmlF doc =>
          simp only [hl] at ht ⊢
          cases hr : reconcileDoc rd (baseName xml) doc with
          | mk d cs =>
            cases cs with
            | nil =>
              simp only [hr] at ht
              exact Option.noConfusion ht
            | cons c cs2 =>
              refine ⟨doc, rfl, ?_⟩
              simp only [hr]
              rw [lookupA_updateA, if_pos rfl]

/-- Witness for C9: on a concrete no-change document the filesystem is
returned unchanged, and for a concrete changed document the chosen
draft name did not previously exist on the filesystem. -/
theorem reconcile_frame_effect_witness :
    ((processXmlFile refB [("in/a.xml", File.xmlF [elemA])] "in/a.xml" "out").1
        = [("in/a.xml", File.xmlF [elemA])] ∧
      (processXmlFile refB [("in/a.xml", File.xmlF [elemA])] "in/a.xml" "out").2.1
        = none) ∧
    lookupA [("in/b.xml", File.xmlF [elemB])]
        (freshName ([("in/b.xml", File.xmlF [elemB])] : FS) "out") = none := by
  constructor
  · exact (reconcile_frame_effect refB [("in/a.xml", File.xmlF [elemA])]
      "in/a.xml" "out").2.1 rfl
  · have h := ((reconcile_frame_effect refB [("in/b.xml", File.xmlF [elemB])]
      "in/b.xml" "out").2.2 (freshName ([("in/b.xml", File.xmlF [elemB])] : FS) "out") rfl)
    exact h.2.1
